import Mathlib

/-!
Verification of the client-side core of the ol-explorer blockchain explorer.

JavaScript strings are modelled as `List Char` (`JSStr`); the JS string methods used
by the source (`toLowerCase`, `includes`, `split`, `trim`, the default array `sort`
comparison) are given explicit executable models below.  The resource slug mapper and
the resource categorizer are translated from `src/screens/AccountDetails.tsx`; the
global data-refresh hook (`useBlockchain.refreshData`), the search handler
(`SearchBar.handleSearch`) and the account refresh handler
(`AccountDetails.handleRefresh`) are translated as effect-trace functions: each
produces the list of SDK calls and store writes that the corresponding JavaScript
function performs, with the suspension points of the single-threaded event loop made
explicit.  Parts of the repository that are referenced but not present in the source
snapshot (the observable store actions, `isValidAddressFormat`) are modelled from the
specification and are marked as such in their doc comments.
-/

/-- JavaScript strings, modelled as lists of characters. -/
abbrev JSStr := List Char

/-- `s.toLowerCase()` (ASCII case mapping, as in `Char.toLower`). -/
def jsLower (s : JSStr) : JSStr := s.map Char.toLower

/-- `hay.includes(sub)`: substring test. -/
def jsIncludes (hay sub : JSStr) : Bool := decide (sub <:+: hay)

/-- `s.trim()`: strip whitespace from both ends. -/
def jsTrim (s : JSStr) : JSStr :=
  ((s.dropWhile Char.isWhitespace).reverse.dropWhile Char.isWhitespace).reverse

/-- `s.split('::')`: left-to-right scan for non-overlapping occurrences of `::`,
as in JavaScript `String.prototype.split` with a two-character separator. -/
def splitOnColons : List Char → List (List Char)
  | [] => [[]]
  | [c] => [[c]]
  | c1 :: c2 :: rest =>
    if c1 = ':' ∧ c2 = ':' then [] :: splitOnColons rest
    else
      match splitOnColons (c2 :: rest) with
      | [] => [[c1]]
      | p :: ps => (c1 :: p) :: ps

/-- `s.split('-')`. -/
def splitOnDash : List Char → List (List Char)
  | [] => [[]]
  | c :: rest =>
    if c = '-' then [] :: splitOnDash rest
    else
      match splitOnDash rest with
      | [] => [[c]]
      | p :: ps => (c :: p) :: ps

/-- One insertion step of JS `Set` construction: append unless already present. -/
def dedupStep {α : Type} [DecidableEq α] (acc : List α) (x : α) : List α :=
  if x ∈ acc then acc else acc ++ [x]

/-- `Array.from(new Set(xs))`: de-duplicate keeping first occurrences, in order. -/
def dedupFirst {α : Type} [DecidableEq α] (l : List α) : List α :=
  l.foldl dedupStep []

/-- The JavaScript default array-sort comparison on strings (`a < b` by code
units), as a boolean less-or-equal on `JSStr`. -/
def jsLeb : List Char → List Char → Bool
  | [], _ => true
  | _ :: _, [] => false
  | a :: as, b :: bs =>
    if a.toNat < b.toNat then true
    else if b.toNat < a.toNat then false
    else jsLeb as bs

/-- The order used by the JavaScript default array sort, as a relation. -/
def jsStrLe (a b : JSStr) : Prop := jsLeb a b = true

instance : DecidableRel jsStrLe := fun a b => by
  unfold jsStrLe
  infer_instance

/- ----------------------------------------------------------------------------
Resource slug mapper, translated from `src/screens/AccountDetails.tsx`.
---------------------------------------------------------------------------- -/

/-- The regex replace of every ASCII uppercase letter `X` by `-X` (the source
writes it as a global replace with capture group on the class A to Z). -/
def dashBeforeUppers : List Char → List Char
  | [] => []
  | c :: rest =>
    if c.isUpper then '-' :: c :: dashBeforeUppers rest
    else c :: dashBeforeUppers rest

/-- The regex replace of one leading dash by the empty string. -/
def stripLeadingDash (l : List Char) : List Char :=
  match l with
  | '-' :: rest => rest
  | _ => l

/-- `resourceTypeToSlug` from `src/screens/AccountDetails.tsx` (lines 87 to 104):
take the last two `::`-separated segments, lower-case the module, kebab-case the
type name, and join them with a dash. -/
def resourceTypeToSlug (type : JSStr) : JSStr :=
  if type = [] then []
  else
    let parts := splitOnColons type
    if parts.length < 2 then []
    else
      let module := jsLower (parts.getD (parts.length - 2) [])
      let typeName := parts.getD (parts.length - 1) []
      let typeNameKebab := stripLeadingDash (jsLower (dashBeforeUppers typeName))
      module ++ '-' :: typeNameKebab

/-- `slugToResourceType` from `src/screens/AccountDetails.tsx` (lines 107 to 174):
inverse lookup of a slug against a candidate list of resource type strings. -/
def slugToResourceType (types : List JSStr) (slug : JSStr) : Option JSStr :=
  if slug = [] ∨ types = [] then none
  else
    let dupMatch : Option JSStr :=
      if slug.contains '-' then
        let segments := splitOnDash slug
        let uniqueSegments := dedupFirst segments
        if uniqueSegments.length < segments.length then
          uniqueSegments.findSome? (fun seg =>
            types.find? (fun t => jsIncludes (jsLower t) (jsLower seg)))
        else none
      else none
    match dupMatch with
    | some t => some t
    | none =>
      match types.find? (fun t => resourceTypeToSlug t = slug) with
      | some t => some t
      | none =>
        if slug = "my-pledges".data then
          types.find? (fun t =>
            jsIncludes (jsLower t) "pledge".data || jsIncludes (jsLower t) "vouch".data)
        else if slug = "fee-maker".data then
          types.find? (fun t =>
            jsIncludes (jsLower t) "fee".data && jsIncludes (jsLower t) "maker".data)
        else
          match types.find? (fun t =>
              (splitOnDash slug).all (fun kw => jsIncludes (jsLower t) kw)) with
          | some t => some t
          | none =>
            types.find? (fun t =>
              jsIncludes (jsLower t) slug || jsIncludes slug (jsLower t))

example : resourceTypeToSlug "0x1::ancestry::Ancestry".data = "ancestry-ancestry".data := by
  decide

example : resourceTypeToSlug "0x1::stake::ValidatorConfig".data
    = "stake-validator-config".data := by decide

example : slugToResourceType ["0x1::stake::ValidatorConfig".data]
    "stake-validator-config".data = some "0x1::stake::ValidatorConfig".data := by decide

/-- The fixed category labels of `categorizeResourceTypes`. -/
def categoryLabels : List String :=
  ["Account", "Assets", "Validating", "Social", "Other"]

/-- The per-type category assignment of `categorizeResourceTypes`
(`src/screens/AccountDetails.tsx`, lines 698 to 721): ordered substring rules on
the lower-cased type name, first matching rule wins. -/
def categorize (type : JSStr) : String :=
  let lowerType := jsLower type
  if jsIncludes lowerType "receipts".data || jsIncludes lowerType "fee_maker".data ||
      (jsIncludes lowerType "account".data &&
        !jsIncludes lowerType "pledge_accounts".data) then "Account"
  else if jsIncludes lowerType "coin".data || jsIncludes lowerType "wallet".data then
    "Assets"
  else if jsIncludes lowerType "stake".data || jsIncludes lowerType "validator".data ||
      jsIncludes lowerType "jail".data || jsIncludes lowerType "proof_of_fee".data then
    "Validating"
  else if jsIncludes lowerType "pledge".data || jsIncludes lowerType "vouch".data ||
      jsIncludes lowerType "ancestry".data then "Social"
  else "Other"

/-- Sorting with the JavaScript default array sort order. -/
def sortJS (l : List JSStr) : List JSStr := List.insertionSort jsStrLe l

/-- `categorizeResourceTypes` from `src/screens/AccountDetails.tsx` (lines 693 to
750).  The JS `Map` keyed by type collapses duplicate input types to their first
occurrence; the record of categories is modelled as an association list in JS
object key insertion order (category order = order of first occurrence).  The JS
code also deletes the key "Other" when its member list is empty, which can never
happen because keys are only created when a member is pushed; the model therefore
omits that dead branch.  Finally "Other" is moved to the last position when it is
present and is not the only category. -/
def categorizeResourceTypes (types : List JSStr) : List (String × List JSStr) :=
  let uniq := dedupFirst types
  let catKeys := dedupFirst (uniq.map categorize)
  let grouped := catKeys.map (fun c => (c, sortJS (uniq.filter (fun t => categorize t = c))))
  if catKeys.contains "Other" && catKeys.length > 1 then
    grouped.filter (fun p => p.1 ≠ "Other") ++ grouped.filter (fun p => p.1 = "Other")
  else grouped

example :
    categorizeResourceTypes
      ["0x1::ancestry::Ancestry".data, "0x1::stake::ValidatorConfig".data,
       "0x1::ol_account::BurnTracker".data, "0x1::mystery::Blob".data] =
    [("Social", ["0x1::ancestry::Ancestry".data]),
     ("Validating", ["0x1::stake::ValidatorConfig".data]),
     ("Account", ["0x1::ol_account::BurnTracker".data]),
     ("Other", ["0x1::mystery::Blob".data])] := by decide

/- ----------------------------------------------------------------------------
Rule-by-rule decomposition of `slugToResourceType`, used to settle the claims
about its matching priority.  Each rule is written from the specification text.
---------------------------------------------------------------------------- -/

/-- Duplicated-segment pre-rule: when the slug contains a repeated dash-separated
segment, try each de-duplicated segment in order and return the first candidate
type containing a matchable segment. -/
def dupSegmentRule (types : List JSStr) (slug : JSStr) : Option JSStr :=
  if slug.contains '-' then
    let segments := splitOnDash slug
    let uniqueSegments := dedupFirst segments
    if uniqueSegments.length < segments.length then
      uniqueSegments.findSome? (fun seg =>
        types.find? (fun t => jsIncludes (jsLower t) (jsLower seg)))
    else none
  else none

/-- Rule 1: exact slug match obtained by re-deriving each candidate type's slug. -/
def exactSlugRule (types : List JSStr) (slug : JSStr) : Option JSStr :=
  types.find? (fun t => resourceTypeToSlug t = slug)

/-- Whether the slug is one of the special-cased legacy aliases. -/
def isLegacySlug (slug : JSStr) : Bool :=
  slug = "my-pledges".data || slug = "fee-maker".data

/-- Rule 2: legacy aliases for the specific known slugs `my-pledges` and
`fee-maker`. -/
def legacyAliasRule (types : List JSStr) (slug : JSStr) : Option JSStr :=
  if slug = "my-pledges".data then
    types.find? (fun t =>
      jsIncludes (jsLower t) "pledge".data || jsIncludes (jsLower t) "vouch".data)
  else if slug = "fee-maker".data then
    types.find? (fun t =>
      jsIncludes (jsLower t) "fee".data && jsIncludes (jsLower t) "maker".data)
  else none

/-- Rule 3: keyword-subset match, every dash-separated slug token must appear in
the candidate type string (lower-cased candidate, tokens as given). -/
def keywordRule (types : List JSStr) (slug : JSStr) : Option JSStr :=
  types.find? (fun t => (splitOnDash slug).all (fun kw => jsIncludes (jsLower t) kw))

/-- Rule 4: substring fallback in either direction. -/
def substringRule (types : List JSStr) (slug : JSStr) : Option JSStr :=
  types.find? (fun t => jsIncludes (jsLower t) slug || jsIncludes slug (jsLower t))

/-- The lookup the claim describes: the four rules tried strictly in priority
order, each rule falling through to the next when it produces no candidate, with
the duplicated-segment pre-rule before all of them. -/
def slugToResourceTypeClaimed (types : List JSStr) (slug : JSStr) : Option JSStr :=
  if slug = [] ∨ types = [] then none
  else
    match dupSegmentRule types slug with
    | some t => some t
    | none =>
      match exactSlugRule types slug with
      | some t => some t
      | none =>
        match legacyAliasRule types slug with
        | some t => some t
        | none =>
          match keywordRule types slug with
          | some t => some t
          | none => substringRule types slug

/-- The lookup the code implements, written with the same rule vocabulary: as
`slugToResourceTypeClaimed` except that for a legacy-alias slug the legacy rule
is terminal: when it yields no candidate the lookup returns `none` instead of
falling through to the keyword and substring rules. -/
def slugToResourceTypeAmended (types : List JSStr) (slug : JSStr) : Option JSStr :=
  if slug = [] ∨ types = [] then none
  else
    match dupSegmentRule types slug with
    | some t => some t
    | none =>
      match exactSlugRule types slug with
      | some t => some t
      | none =>
        if isLegacySlug slug then legacyAliasRule types slug
        else
          match keywordRule types slug with
          | some t => some t
          | none => substringRule types slug

/- ----------------------------------------------------------------------------
Observable blockchain store and the `useBlockchain.refreshData` hook
(`src/hooks/useBlockchain.ts`, the first unnamed source file).  The hook is
translated as an effect-trace function over an explicit hook state: it returns
the interleaved list of SDK calls and store writes the JavaScript function
performs in one invocation, plus the hook state at its end.  The suspension
points of the event loop are the SDK awaits; the synchronous prefix up to the
first await is additionally exposed as `refreshDataStart`.
---------------------------------------------------------------------------- -/

/-- The stats fields written by `blockchainActions.setStats` and displayed by
`BlockchainStats` (fields start as `null`, hence `Option`). -/
structure BlockchainStats where
  blockHeight : Option Nat
  epoch : Option Nat
  chainId : Option String
  deriving DecidableEq, Repr

/-- Modelled from the spec: the observable `blockchainStore`
(`src/store/blockchainStore.ts` is not in the source snapshot; only its callers
are).  Per spec section 4.3 it holds the stats singleton, the transaction list,
the loading flag, the error field and the configurable transaction-count limit,
and is mutated only through the action functions below. -/
structure BlockchainStoreState (Tx : Type) where
  stats : BlockchainStats
  transactions : List Tx
  isLoading : Bool
  error : Option String
  currentLimit : Option Nat
  deriving DecidableEq, Repr

/-- The SDK calls issued by `refreshData`. -/
inductive SdkCall where
  | getTransactions (limit : Nat)
  | getLatestBlockHeight
  | getLatestEpoch
  | getChainId
  deriving DecidableEq, Repr

/-- Modelled from the spec: the store writes of `blockchainActions`
(`setLoading`, `setTransactions`, `setStats`, `setError`, `forceUpdate`); per
spec section 4.3 each is an atomic whole-field replacement. -/
inductive StoreEffect (Tx : Type) where
  | setLoading (b : Bool)
  | setTransactions (txs : List Tx)
  | setStats (blockHeight epoch : Nat) (chainId : String)
  | setError (msg : String)
  | forceUpdate
  deriving DecidableEq, Repr

/-- One event of a refresh cycle: an SDK call or a store write. -/
inductive REvent (Tx : Type) where
  | call (c : SdkCall)
  | eff (e : StoreEffect Tx)
  deriving DecidableEq, Repr

/-- Modelled from the spec: applying one store action to the store state
(atomic whole-field replacement, spec section 4.3). -/
def applyEffect {Tx : Type} (s : BlockchainStoreState Tx) :
    StoreEffect Tx → BlockchainStoreState Tx
  | .setLoading b => { s with isLoading := b }
  | .setTransactions txs => { s with transactions := txs }
  | .setStats bh ep cid =>
      { s with stats := { blockHeight := some bh, epoch := some ep, chainId := some cid } }
  | .setError msg => { s with error := some msg }
  | .forceUpdate => s

/-- The store state after applying the store writes of an event list in order. -/
def storeAfter {Tx : Type} (s : BlockchainStoreState Tx) (evs : List (REvent Tx)) :
    BlockchainStoreState Tx :=
  evs.foldl (fun st ev => match ev with | .call _ => st | .eff e => applyEffect st e) s

/-- The SDK as seen by `useBlockchain`: each method either resolves with a value
or rejects with an error message. -/
structure BlockchainSdk (Tx : Type) where
  getTransactions : Nat → Except String (List Tx)
  getLatestBlockHeight : Except String Nat
  getLatestEpoch : Except String Nat
  getChainId : Except String String

/-- The component state of the `useBlockchain` hook: the SDK-ready flag from the
SDK context and the two local guard flags (`isLoading`, `fetchRequested`). -/
structure HookState where
  isInitialized : Bool
  isLoading : Bool
  fetchRequested : Bool
  deriving DecidableEq, Repr

/-- The transaction limit read at the start of a refresh:
`blockchainStore.currentLimit?.get() || appConfig.transactions.defaultLimit`
(a stored limit of `0` is falsy in JS and also falls back to the default). -/
def effectiveLimit {Tx : Type} (store : BlockchainStoreState Tx) (defaultLimit : Nat) : Nat :=
  match store.currentLimit with
  | some n => if n = 0 then defaultLimit else n
  | none => defaultLimit

/-- `refreshData` from `useBlockchain` (first unnamed source file, lines 15 to
64), as an effect trace: the guard on `isInitialized` and on the in-flight flags,
then `setLoading true`, the awaited `getTransactions` (writing the transaction
list on success, else the catch writes the error), then the three stats
sub-fetches issued together via `Promise.all` (written to the store in a single
`setStats` on success; on rejection the catch writes the first rejection's error
message), then `forceUpdate`, and finally the `finally` block clearing the flags
and `setLoading false`.  `defaultLimit` stands for
`appConfig.transactions.defaultLimit` (the config file is not in the snapshot). -/
def refreshDataEvents {Tx : Type} (sdk : BlockchainSdk Tx) (defaultLimit : Nat)
    (h : HookState) (store : BlockchainStoreState Tx) : List (REvent Tx) × HookState :=
  if !h.isInitialized then ([], h)
  else if h.isLoading || h.fetchRequested then ([], h)
  else
    let limit := effectiveLimit store defaultLimit
    let bodyEvents : List (REvent Tx) :=
      match sdk.getTransactions limit with
      | .error e => [.call (.getTransactions limit), .eff (.setError e)]
      | .ok txs =>
        [.call (.getTransactions limit), .eff (.setTransactions txs),
         .call .getLatestBlockHeight, .call .getLatestEpoch, .call .getChainId] ++
        match sdk.getLatestBlockHeight, sdk.getLatestEpoch, sdk.getChainId with
        | .ok bh, .ok ep, .ok cid => [.eff (.setStats bh ep cid), .eff .forceUpdate]
        | .error e, _, _ => [.eff (.setError e)]
        | .ok _, .error e, _ => [.eff (.setError e)]
        | .ok _, .ok _, .error e => [.eff (.setError e)]
    ((REvent.eff (.setLoading true) :: bodyEvents) ++ [.eff (.setLoading false)],
     { h with isLoading := false, fetchRequested := false })

/-- `refreshData` summarized: the SDK calls it issues, the hook state and the
store state at the end of the cycle. -/
def refreshData {Tx : Type} (sdk : BlockchainSdk Tx) (defaultLimit : Nat)
    (h : HookState) (store : BlockchainStoreState Tx) :
    List SdkCall × HookState × BlockchainStoreState Tx :=
  let (evs, h2) := refreshDataEvents sdk defaultLimit h store
  (evs.filterMap (fun ev => match ev with | .call c => some c | .eff _ => none),
   h2, storeAfter store evs)

/-- The synchronous prefix of `refreshData`, up to the first await: the guards
(lines 16 to 23) and the flag writes (lines 25 to 26).  Returns `none` when the
call returns immediately, otherwise the hook state at the first suspension
point.  The flags stay set until the `finally` block of the same invocation, so
this is the hook state any second call observes while the first is outstanding. -/
def refreshDataStart (h : HookState) : Option HookState :=
  if !h.isInitialized then none
  else if h.isLoading || h.fetchRequested then none
  else some { h with isLoading := true, fetchRequested := true }

/- ----------------------------------------------------------------------------
`SearchBar.handleSearch` (second unnamed source file, lines 123 to 171).
---------------------------------------------------------------------------- -/

/-- A hexadecimal digit (JS address formats are ASCII hex). -/
def isHexChar (c : Char) : Bool :=
  c.isDigit || ('a' ≤ c && c ≤ 'f') || ('A' ≤ c && c ≤ 'F')

/-- Modelled from the spec: `isValidAddressFormat` from `src/utils/addressUtils`
is not in the source snapshot.  Per spec section 4.1 it is a pure predicate that
accepts canonical hex account addresses (the section 8 scenario accepts the
32-hex-character address `9A710919B1A1E67EDA335269C0085C91`; the canonical fixed
width is at most 64 hex characters, with an optional `0x` prefix) and rejects
strings containing non-hex characters or of wrong length ranges. -/
def isValidAddressFormat (input : JSStr) : Bool :=
  let body := if input.take 2 = ['0', 'x'] then input.drop 2 else input
  decide (0 < body.length) && decide (body.length ≤ 64) && body.all isHexChar

/-- The externally visible actions of one `handleSearch` invocation: SDK lookups
and router navigations. -/
inductive SearchEvent where
  | callGetAccount (q : JSStr)
  | callGetTxByHash (q : JSStr)
  | navigateToAccount (q : JSStr)
  | navigateToTx (q : JSStr)
  deriving DecidableEq, Repr

/-- The component state of `SearchBar` touched by `handleSearch`. -/
structure SearchState where
  searchQuery : JSStr
  error : Option String
  isSearching : Bool
  deriving DecidableEq, Repr

/-- The SDK as seen by `SearchBar`: an account lookup that resolves with account
data or a falsy value, and a transaction lookup that resolves with transaction
details or a falsy value; either can also reject. -/
structure SearchSdk (A T : Type) where
  getAccount : JSStr → Except String (Option A)
  getTransactionByHash : JSStr → Except String (Option T)

/-- The final not-found message of `handleSearch`. -/
def searchNotFoundMsg : String := "No account or transaction found with this identifier"

/-- The catch-all error message of `handleSearch`. -/
def searchErrorMsg : String := "Error performing search"

/-- The transaction-lookup tail of `handleSearch` (lines 151 to 164): the
account branch falls through to it when the account lookup resolves falsy, and
queries that do not look like an address reach it directly. -/
def txLookupStep {A T : Type} (sdk : SearchSdk A T) (st1 : SearchState)
    (query : JSStr) : List SearchEvent × SearchState :=
  match sdk.getTransactionByHash query with
  | .ok (some _) =>
    ([.callGetTxByHash query, .navigateToTx query],
     { st1 with searchQuery := [], isSearching := false })
  | .ok none =>
    ([.callGetTxByHash query],
     { st1 with error := some searchNotFoundMsg, isSearching := false })
  | .error _ =>
    ([.callGetTxByHash query],
     { st1 with error := some searchErrorMsg, isSearching := false })

/-- `handleSearch` from `SearchBar` (second unnamed source file, lines 123 to
171): the empty-after-trim guard returns before any state write; otherwise the
search flag is set and the error cleared, the account lookup runs only when the
query has a valid address format (navigating and clearing the query on a truthy
result, falling through to the transaction lookup on a falsy one), then the
transaction lookup; a rejection of either lookup is caught and recorded as the
generic search error; the `finally` block clears the search flag. -/
def handleSearch {A T : Type} (sdk : SearchSdk A T) (st : SearchState) :
    List SearchEvent × SearchState :=
  if jsTrim st.searchQuery = [] then ([], st)
  else
    let st1 : SearchState := { st with isSearching := true, error := none }
    let query := jsTrim st.searchQuery
    if isValidAddressFormat query then
      match sdk.getAccount query with
      | .ok (some _) =>
        ([.callGetAccount query, .navigateToAccount query],
         { st1 with searchQuery := [], isSearching := false })
      | .ok none =>
        let (evs, st2) := txLookupStep sdk st1 query
        (SearchEvent.callGetAccount query :: evs, st2)
      | .error _ =>
        ([.callGetAccount query],
         { st1 with error := some searchErrorMsg, isSearching := false })
    else
      txLookupStep sdk st1 query

/- ----------------------------------------------------------------------------
`AccountDetails.handleRefresh` (`src/screens/AccountDetails.tsx`, lines 392 to
404) and its liveness flag.
---------------------------------------------------------------------------- -/

/-- The externally visible actions of one `handleRefresh` invocation.
`refreshAccount` comes from the `useAccount` hook, which is not in the source
snapshot; its dispatch is recorded as a single call event.
`scheduleIndicatorReset` is the `setTimeout` that resets the component-local
`isAutoRefreshing` indicator. -/
inductive RefreshEvent where
  | setAutoRefreshing (b : Bool)
  | callRefreshAccount
  | scheduleIndicatorReset
  deriving DecidableEq, Repr

/-- `handleRefresh` from `AccountDetails` (lines 392 to 404): set the indicator,
dispatch `refreshAccount`, and after it settles consult the `isMounted` liveness
ref (lines 400 to 402); only when the component is still mounted at completion
is the indicator reset scheduled.  The argument is the value of
`isMounted.current` when the dispatched call settles. -/
def handleRefresh (mountedAtCompletion : Bool) : List RefreshEvent :=
  [.setAutoRefreshing true, .callRefreshAccount] ++
    (if mountedAtCompletion then [.scheduleIndicatorReset] else [])

/- ----------------------------------------------------------------------------
Theorems.
---------------------------------------------------------------------------- -/

/-- C10: if the search query is empty or whitespace-only after trimming,
`handleSearch` returns immediately: no SDK lookup is made, no navigation event is
emitted, and the component state (in particular the error field) is unchanged. -/
theorem handleSearch_blank_query_noop {A T : Type} (sdk : SearchSdk A T)
    (st : SearchState) (hblank : jsTrim st.searchQuery = []) :
    handleSearch sdk st = ([], st) := by
  unfold handleSearch
  simp [hblank]

/-- Witness for C10 at a whitespace-only query with a pre-existing error value:
the prior error is left in place and no events are emitted. -/
theorem handleSearch_blank_query_noop_witness :
    handleSearch (A := Unit) (T := Unit)
      ⟨fun _ => Except.ok (some ()), fun _ => Except.ok (some ())⟩
      ⟨"   ".data, some "previous error", false⟩
      = ([], ⟨"   ".data, some "previous error", false⟩) :=
  handleSearch_blank_query_noop _ _ (by decide)

/-- C5: a second call to `refreshData` while one invocation is outstanding is a
no-op.  `refreshDataStart` is the synchronous prefix of the first invocation (it
sets both in-flight flags before the first suspension point and they stay set
until the `finally` block); in the hook state it leaves behind, any further
invocation returns immediately with no SDK call, no store write, and no state
change. -/
theorem refreshData_second_call_noop {Tx : Type} (h h2 : HookState)
    (hstart : refreshDataStart h = some h2) (sdk : BlockchainSdk Tx)
    (defaultLimit : Nat) (s : BlockchainStoreState Tx) :
    refreshData sdk defaultLimit h2 s = ([], h2, s) := by
  have hflag : h2.isLoading = true := by
    unfold refreshDataStart at hstart
    split at hstart
    · exact absurd hstart (by simp)
    · split at hstart
      · exact absurd hstart (by simp)
      · simp only [Option.some.injEq] at hstart
        subst hstart
        rfl
  unfold refreshData refreshDataEvents
  by_cases hinit : (!h2.isInitialized) = true
  · simp [hinit, storeAfter]
  · simp [hinit, hflag, storeAfter]

/-- Witness for C5: concrete first call takes the in-flight state, and the
second call in that state does nothing. -/
theorem refreshData_second_call_noop_witness :
    refreshData (⟨fun _ => Except.ok [1, 2], Except.ok 10, Except.ok 3, Except.ok "id"⟩ : BlockchainSdk Nat)
      25 ⟨true, true, true⟩ ⟨⟨none, none, none⟩, [], false, none, none⟩
      = ([], ⟨true, true, true⟩, ⟨⟨none, none, none⟩, [], false, none, none⟩) :=
  refreshData_second_call_noop ⟨true, false, false⟩ ⟨true, true, true⟩ (by decide) _ _ _

/-- Each matching rule only ever returns an element of the candidate list. -/
theorem dupSegmentRule_mem {types : List JSStr} {slug t : JSStr}
    (h : dupSegmentRule types slug = some t) : t ∈ types := by
  unfold dupSegmentRule at h
  split at h
  · dsimp only [] at h
    split at h
    · obtain ⟨seg, hseg, hfind⟩ := List.exists_of_findSome?_eq_some h
      exact List.mem_of_find?_eq_some hfind
    · exact absurd h (by simp)
  · exact absurd h (by simp)

theorem exactSlugRule_mem {types : List JSStr} {slug t : JSStr}
    (h : exactSlugRule types slug = some t) : t ∈ types :=
  List.mem_of_find?_eq_some h

theorem legacyAliasRule_mem {types : List JSStr} {slug t : JSStr}
    (h : legacyAliasRule types slug = some t) : t ∈ types := by
  unfold legacyAliasRule at h
  split at h
  · exact List.mem_of_find?_eq_some h
  · split at h
    · exact List.mem_of_find?_eq_some h
    · exact absurd h (by simp)

theorem keywordRule_mem {types : List JSStr} {slug t : JSStr}
    (h : keywordRule types slug = some t) : t ∈ types :=
  List.mem_of_find?_eq_some h

theorem substringRule_mem {types : List JSStr} {slug t : JSStr}
    (h : substringRule types slug = some t) : t ∈ types :=
  List.mem_of_find?_eq_some h

/-- Bridge: the source translation of `slugToResourceType` coincides with the
rule-by-rule composition in which the legacy-alias step is terminal. -/
theorem slugToResourceType_ruleForm (types : List JSStr) (slug : JSStr) :
    slugToResourceType types slug = slugToResourceTypeAmended types slug := by
  by_cases hg : slug = [] ∨ types = []
  · unfold slugToResourceType slugToResourceTypeAmended
    rw [if_pos hg, if_pos hg]
  · unfold slugToResourceType slugToResourceTypeAmended dupSegmentRule exactSlugRule
      legacyAliasRule keywordRule substringRule isLegacySlug
    rw [if_neg hg, if_neg hg]
    dsimp only []
    split
    · rfl
    · split
      · rfl
      · by_cases h1 : slug = "my-pledges".data
        · simp [h1]
        · by_cases h2 : slug = "fee-maker".data
          · simp [h1, h2]
          · simp [h1, h2]

/-- C9: `slugToResourceType` never fabricates a type: a non-`none` result is an
element of the supplied candidate list. -/
theorem slugToResourceType_mem_of_some (types : List JSStr) (slug : JSStr)
    (r : JSStr) (hr : slugToResourceType types slug = some r) : r ∈ types := by
  rw [slugToResourceType_ruleForm] at hr
  unfold slugToResourceTypeAmended at hr
  split at hr
  · exact absurd hr (by simp)
  · split at hr
    · rename_i t heq
      cases hr
      exact dupSegmentRule_mem heq
    · split at hr
      · rename_i t heq
        cases hr
        exact exactSlugRule_mem heq
      · split at hr
        · exact legacyAliasRule_mem hr
        · split at hr
          · rename_i t heq
            cases hr
            exact keywordRule_mem heq
          · exact substringRule_mem hr

/-- Witness for C9: a concrete lookup resolves to an element of the candidate
list. -/
theorem slugToResourceType_mem_of_some_witness :
    "0x1::stake::ValidatorConfig".data ∈
      ["0x1::jail::Jail".data, "0x1::stake::ValidatorConfig".data] :=
  slugToResourceType_mem_of_some
    ["0x1::jail::Jail".data, "0x1::stake::ValidatorConfig".data]
    "stake-validator-config".data "0x1::stake::ValidatorConfig".data (by decide)

/-- C3 counterexample: the priority order of the claim makes every rule fall
through to the next when it yields no candidate, but in the code the
legacy-alias rules are terminal.  For slug `my-pledges` and candidate list
`["My"]` no legacy criterion matches, the fall-through reading finds `"My"` by
the substring rule, yet the code returns `none`. -/
theorem slugToResourceType_priority_cex :
    slugToResourceType ["My".data] "my-pledges".data = none ∧
    slugToResourceTypeClaimed ["My".data] "my-pledges".data = some "My".data := by
  decide

/-- C3 (amended): `slugToResourceType` applies the duplicated-segment pre-rule,
then exact slug match, legacy aliases, keyword-subset match and substring
fallback in that priority order, each rule returning the first candidate in
input order — except that for the legacy-alias slugs the legacy rule is
terminal: when it yields no candidate the lookup returns `none` without trying
the keyword or substring rules. -/
theorem slugToResourceType_priority_order (types : List JSStr) (slug : JSStr) :
    slugToResourceType types slug = slugToResourceTypeAmended types slug :=
  slugToResourceType_ruleForm types slug

/-- C1 counterexample: in a refresh cycle where the stats sub-fetches would all
succeed (42, 7, "main") but `getTransactions` rejects, the cycle ends with the
stats fields UNCHANGED (not updated, contrary to the claim), because the
transactions fetch is awaited first and its rejection jumps to the catch block
before the stats sub-fetches are started.  Transactions are unchanged and the
error is recorded, as the claim also says. -/
theorem refreshData_txFailure_cex :
    (refreshData (⟨fun _ => Except.error "boom", Except.ok 42, Except.ok 7, Except.ok "main"⟩ : BlockchainSdk Nat)
        25 ⟨true, false, false⟩ ⟨⟨some 1, some 2, some "old"⟩, [5], false, none, none⟩).2.2.stats
      = ⟨some 1, some 2, some "old"⟩ ∧
    (⟨some 1, some 2, some "old"⟩ : BlockchainStats) ≠ ⟨some 42, some 7, some "main"⟩ ∧
    (refreshData (⟨fun _ => Except.error "boom", Except.ok 42, Except.ok 7, Except.ok "main"⟩ : BlockchainSdk Nat)
        25 ⟨true, false, false⟩ ⟨⟨some 1, some 2, some "old"⟩, [5], false, none, none⟩).2.2.transactions
      = [5] ∧
    (refreshData (⟨fun _ => Except.error "boom", Except.ok 42, Except.ok 7, Except.ok "main"⟩ : BlockchainSdk Nat)
        25 ⟨true, false, false⟩ ⟨⟨some 1, some 2, some "old"⟩, [5], false, none, none⟩).2.2.error
      = some "boom" := by
  decide

/-- C1 (amended): in a refresh cycle in which `getTransactions` rejects, the
stats sub-fetches are never started (the transactions fetch precedes them and
its rejection jumps to the catch block), so the cycle ends with the stats fields
unchanged, the transactions list unchanged, and the rejection's error message
recorded in the store's error field; the only SDK call of the cycle is the
transactions fetch. -/
theorem refreshData_txFailure_preserves {Tx : Type} (sdk : BlockchainSdk Tx)
    (defaultLimit : Nat) (h : HookState) (s : BlockchainStoreState Tx) (e : String)
    (hinit : h.isInitialized = true) (hl : h.isLoading = false)
    (hf : h.fetchRequested = false)
    (htx : sdk.getTransactions (effectiveLimit s defaultLimit) = Except.error e) :
    (refreshData sdk defaultLimit h s).2.2.stats = s.stats ∧
    (refreshData sdk defaultLimit h s).2.2.transactions = s.transactions ∧
    (refreshData sdk defaultLimit h s).2.2.error = some e ∧
    (refreshData sdk defaultLimit h s).1
      = [SdkCall.getTransactions (effectiveLimit s defaultLimit)] := by
  unfold refreshData refreshDataEvents
  simp [hinit, hl, hf, htx, storeAfter, applyEffect]

/-- Witness for the amended C1 at the counterexample's concrete inputs. -/
theorem refreshData_txFailure_preserves_witness :
    (refreshData (⟨fun _ => Except.error "boom", Except.ok 42, Except.ok 7, Except.ok "main"⟩ : BlockchainSdk Nat)
        25 ⟨true, false, false⟩ ⟨⟨some 1, some 2, some "old"⟩, [5], false, none, none⟩).2.2.stats
      = ⟨some 1, some 2, some "old"⟩ ∧
    (refreshData (⟨fun _ => Except.error "boom", Except.ok 42, Except.ok 7, Except.ok "main"⟩ : BlockchainSdk Nat)
        25 ⟨true, false, false⟩ ⟨⟨some 1, some 2, some "old"⟩, [5], false, none, none⟩).2.2.transactions
      = [5] ∧
    (refreshData (⟨fun _ => Except.error "boom", Except.ok 42, Except.ok 7, Except.ok "main"⟩ : BlockchainSdk Nat)
        25 ⟨true, false, false⟩ ⟨⟨some 1, some 2, some "old"⟩, [5], false, none, none⟩).2.2.error
      = some "boom" ∧
    (refreshData (⟨fun _ => Except.error "boom", Except.ok 42, Except.ok 7, Except.ok "main"⟩ : BlockchainSdk Nat)
        25 ⟨true, false, false⟩ ⟨⟨some 1, some 2, some "old"⟩, [5], false, none, none⟩).1
      = [SdkCall.getTransactions 25] :=
  refreshData_txFailure_preserves _ 25 _ _ "boom" rfl rfl rfl rfl

/-- C7 counterexample: for the query `zzz`, which matches neither the account
address format nor anything the transaction lookup recognizes, `handleSearch`
does NOT perform the account-then-transaction fallback the claim describes: the
account lookup is skipped entirely (the address-format check excludes it, even
though the SDK would have found an account), only the single transaction lookup
runs, and the not-found message is set. -/
theorem handleSearch_nonAddress_cex :
    handleSearch (A := Unit) (T := Unit)
        ⟨fun _ => Except.ok (some ()), fun _ => Except.ok none⟩
        ⟨"zzz".data, none, false⟩
      = ([SearchEvent.callGetTxByHash "zzz".data],
         ⟨"zzz".data, some "No account or transaction found with this identifier", false⟩) ∧
    (SearchEvent.callGetAccount "zzz".data) ∉
      (handleSearch (A := Unit) (T := Unit)
        ⟨fun _ => Except.ok (some ()), fun _ => Except.ok none⟩
        ⟨"zzz".data, none, false⟩).1 := by
  decide

/-- C7 (amended): for a non-blank query that does not match the account address
format, `handleSearch` skips the account lookup (excluded synchronously by the
format check) and performs exactly one SDK call, the transaction lookup; when
that lookup resolves with a falsy result — a negative result, not an error —
the error field is set to exactly
"No account or transaction found with this identifier" and no navigation
occurs. -/
theorem handleSearch_nonAddress_notFound {A T : Type} (sdk : SearchSdk A T)
    (st : SearchState) (hne : jsTrim st.searchQuery ≠ [])
    (hfmt : isValidAddressFormat (jsTrim st.searchQuery) = false)
    (htx : sdk.getTransactionByHash (jsTrim st.searchQuery) = Except.ok none) :
    handleSearch sdk st
      = ([SearchEvent.callGetTxByHash (jsTrim st.searchQuery)],
         { st with error := some searchNotFoundMsg, isSearching := false }) := by
  unfold handleSearch txLookupStep
  simp [hne, hfmt, htx]

/-- Witness for the amended C7 at the counterexample's concrete inputs. -/
theorem handleSearch_nonAddress_notFound_witness :
    handleSearch (A := Unit) (T := Unit)
        ⟨fun _ => Except.ok (some ()), fun _ => Except.ok none⟩
        ⟨"zzz".data, none, false⟩
      = ([SearchEvent.callGetTxByHash "zzz".data],
         ⟨"zzz".data, some "No account or transaction found with this identifier", false⟩) :=
  handleSearch_nonAddress_notFound _ _ (by decide) (by decide) rfl

/-- C6: in a successful refresh cycle the three stats sub-fetches are issued
together at one suspension point (they appear consecutively in the event trace,
with no store write between them) and the cycle writes the stats in one single
`setStats` store action; consequently, at every intermediate point of the cycle
the store's stats are either the complete old value or the complete new value —
no reachable store state shows a torn combination. -/
theorem refreshData_success_atomic_stats {Tx : Type} (sdk : BlockchainSdk Tx)
    (defaultLimit : Nat) (h : HookState) (s : BlockchainStoreState Tx)
    (txs : List Tx) (bh ep : Nat) (cid : String)
    (hinit : h.isInitialized = true) (hl : h.isLoading = false)
    (hf : h.fetchRequested = false)
    (htx : sdk.getTransactions (effectiveLimit s defaultLimit) = Except.ok txs)
    (hbh : sdk.getLatestBlockHeight = Except.ok bh)
    (hep : sdk.getLatestEpoch = Except.ok ep)
    (hcid : sdk.getChainId = Except.ok cid) :
    (refreshDataEvents sdk defaultLimit h s).1 =
      [REvent.eff (StoreEffect.setLoading true),
       REvent.call (SdkCall.getTransactions (effectiveLimit s defaultLimit)),
       REvent.eff (StoreEffect.setTransactions txs),
       REvent.call SdkCall.getLatestBlockHeight,
       REvent.call SdkCall.getLatestEpoch,
       REvent.call SdkCall.getChainId,
       REvent.eff (StoreEffect.setStats bh ep cid),
       REvent.eff StoreEffect.forceUpdate,
       REvent.eff (StoreEffect.setLoading false)] ∧
    ∀ n : Nat,
      (storeAfter s ((refreshDataEvents sdk defaultLimit h s).1.take n)).stats = s.stats ∨
      (storeAfter s ((refreshDataEvents sdk defaultLimit h s).1.take n)).stats
        = ⟨some bh, some ep, some cid⟩ := by
  have hevs : (refreshDataEvents sdk defaultLimit h s).1 =
      [REvent.eff (StoreEffect.setLoading true),
       REvent.call (SdkCall.getTransactions (effectiveLimit s defaultLimit)),
       REvent.eff (StoreEffect.setTransactions txs),
       REvent.call SdkCall.getLatestBlockHeight,
       REvent.call SdkCall.getLatestEpoch,
       REvent.call SdkCall.getChainId,
       REvent.eff (StoreEffect.setStats bh ep cid),
       REvent.eff StoreEffect.forceUpdate,
       REvent.eff (StoreEffect.setLoading false)] := by
    unfold refreshDataEvents
    simp [hinit, hl, hf, htx, hbh, hep, hcid]
  refine ⟨hevs, ?_⟩
  intro n
  rw [hevs]
  rcases n with _|_|_|_|_|_|_|_|_|n
  · left; rfl
  · left; rfl
  · left; rfl
  · left; rfl
  · left; rfl
  · left; rfl
  · left; rfl
  · right; rfl
  · right; rfl
  · right
    rw [List.take_of_length_le (by simp only [List.length_cons, List.length_nil]; omega)]
    rfl

/-- Witness for C6 at concrete inputs, including the no-torn-state disjunction
at the intermediate point right after the transactions write. -/
theorem refreshData_success_atomic_stats_witness :
    ((refreshDataEvents (⟨fun _ => Except.ok [9], Except.ok 42, Except.ok 7, Except.ok "main"⟩ : BlockchainSdk Nat)
        25 ⟨true, false, false⟩ ⟨⟨some 1, some 2, some "old"⟩, [5], false, none, none⟩).1 =
      [REvent.eff (StoreEffect.setLoading true),
       REvent.call (SdkCall.getTransactions 25),
       REvent.eff (StoreEffect.setTransactions [9]),
       REvent.call SdkCall.getLatestBlockHeight,
       REvent.call SdkCall.getLatestEpoch,
       REvent.call SdkCall.getChainId,
       REvent.eff (StoreEffect.setStats 42 7 "main"),
       REvent.eff StoreEffect.forceUpdate,
       REvent.eff (StoreEffect.setLoading false)]) ∧
    ((storeAfter ⟨⟨some 1, some 2, some "old"⟩, [5], false, none, none⟩
        ((refreshDataEvents (⟨fun _ => Except.ok [9], Except.ok 42, Except.ok 7, Except.ok "main"⟩ : BlockchainSdk Nat)
          25 ⟨true, false, false⟩ ⟨⟨some 1, some 2, some "old"⟩, [5], false, none, none⟩).1.take 3)).stats
        = ⟨some 1, some 2, some "old"⟩ ∨
     (storeAfter ⟨⟨some 1, some 2, some "old"⟩, [5], false, none, none⟩
        ((refreshDataEvents (⟨fun _ => Except.ok [9], Except.ok 42, Except.ok 7, Except.ok "main"⟩ : BlockchainSdk Nat)
          25 ⟨true, false, false⟩ ⟨⟨some 1, some 2, some "old"⟩, [5], false, none, none⟩).1.take 3)).stats
        = ⟨some 42, some 7, some "main"⟩) :=
  ⟨(refreshData_success_atomic_stats _ 25 _ _ [9] 42 7 "main" rfl rfl rfl rfl rfl rfl rfl).1,
   (refreshData_success_atomic_stats _ 25 _ _ [9] 42 7 "main" rfl rfl rfl rfl rfl rfl rfl).2 3⟩

/-- C8 counterexample: with a successful SDK outcome, the refresh cycle applies
the late-arriving response to the store unconditionally — `refreshDataEvents`
consults no liveness information at all, so the same store writes happen for an
unmounted consumer — while the `isMounted` liveness flag in `handleRefresh`
guards only the component-local indicator reset: with the flag false the
dispatched call still runs and only the indicator reset is suppressed. -/
theorem lateResponse_applied_to_store_cex :
    REvent.eff (StoreEffect.setTransactions [9]) ∈
      (refreshDataEvents (⟨fun _ => Except.ok [9], Except.ok 42, Except.ok 7, Except.ok "main"⟩ : BlockchainSdk Nat)
        25 ⟨true, false, false⟩ ⟨⟨some 1, some 2, some "old"⟩, [5], false, none, none⟩).1 ∧
    handleRefresh false = [RefreshEvent.setAutoRefreshing true, RefreshEvent.callRefreshAccount] ∧
    RefreshEvent.callRefreshAccount ∈ handleRefresh false ∧
    RefreshEvent.scheduleIndicatorReset ∉ handleRefresh false := by
  decide

/-- C8 (amended): unmounting stops future scheduled ticks but does not cancel an
already-dispatched call, and the late-arriving response is still applied to the
global store (the refresh cycle's store writes depend only on the SDK outcome,
never on a liveness flag); the `isMounted` liveness flag suppresses only the
component-local auto-refresh-indicator reset of `handleRefresh`. -/
theorem lateResponse_store_and_indicator {Tx : Type} (sdk : BlockchainSdk Tx)
    (defaultLimit : Nat) (h : HookState) (s : BlockchainStoreState Tx)
    (txs : List Tx)
    (hinit : h.isInitialized = true) (hl : h.isLoading = false)
    (hf : h.fetchRequested = false)
    (htx : sdk.getTransactions (effectiveLimit s defaultLimit) = Except.ok txs) :
    (REvent.eff (StoreEffect.setTransactions txs) ∈ (refreshDataEvents sdk defaultLimit h s).1) ∧
    (∀ m : Bool, RefreshEvent.callRefreshAccount ∈ handleRefresh m) ∧
    (∀ m : Bool, (RefreshEvent.scheduleIndicatorReset ∈ handleRefresh m) ↔ m = true) := by
  refine ⟨?_, ?_, ?_⟩
  · unfold refreshDataEvents
    simp only [hinit, hl, hf, htx]
    rcases sdk.getLatestBlockHeight with e | bh <;>
      rcases sdk.getLatestEpoch with e2 | ep <;>
        rcases sdk.getChainId with e3 | cid <;> simp
  · intro m
    unfold handleRefresh
    simp
  · intro m
    unfold handleRefresh
    rcases m with _ | _ <;> simp

/-- Witness for the amended C8 at concrete inputs. -/
theorem lateResponse_store_and_indicator_witness :
    (REvent.eff (StoreEffect.setTransactions [9]) ∈
      (refreshDataEvents (⟨fun _ => Except.ok [9], Except.ok 42, Except.ok 7, Except.ok "main"⟩ : BlockchainSdk Nat)
        25 ⟨true, false, false⟩ ⟨⟨some 1, some 2, some "old"⟩, [5], false, none, none⟩).1) ∧
    (RefreshEvent.callRefreshAccount ∈ handleRefresh false) ∧
    ((RefreshEvent.scheduleIndicatorReset ∈ handleRefresh false) ↔ false = true) :=
  by
  have happ := lateResponse_store_and_indicator
    (⟨fun _ => Except.ok [9], Except.ok 42, Except.ok 7, Except.ok "main"⟩ : BlockchainSdk Nat) 25
    ⟨true, false, false⟩ ⟨⟨some 1, some 2, some "old"⟩, [5], false, none, none⟩
    [9] rfl rfl rfl rfl
  exact ⟨happ.1, happ.2.1 false, happ.2.2 false⟩

/- Helper lemmas about the JS string model. -/

theorem foldl_dedupStep_extends {α : Type} [DecidableEq α] :
    ∀ (xs acc : List α), ∃ t, xs.foldl dedupStep acc = acc ++ t := by
  intro xs
  induction xs with
  | nil => exact fun acc => ⟨[], by simp⟩
  | cons y ys ih =>
    intro acc
    rw [List.foldl_cons]
    obtain ⟨t1, ht1⟩ := ih (dedupStep acc y)
    by_cases hy : y ∈ acc
    · have hstep : dedupStep acc y = acc := by
        unfold dedupStep
        rw [if_pos hy]
      refine ⟨t1, ?_⟩
      rw [hstep]
      rw [hstep] at ht1
      exact ht1
    · have hstep : dedupStep acc y = acc ++ [y] := by
        unfold dedupStep
        rw [if_neg hy]
      refine ⟨y :: t1, ?_⟩
      rw [hstep] at ht1 ⊢
      rw [ht1]
      simp

theorem mem_foldl_dedupStep {α : Type} [DecidableEq α] (a : α) :
    ∀ (xs acc : List α), a ∈ xs.foldl dedupStep acc ↔ a ∈ acc ∨ a ∈ xs := by
  intro xs
  induction xs with
  | nil => simp
  | cons y ys ih =>
    intro acc
    have step : a ∈ dedupStep acc y ↔ a ∈ acc ∨ a = y := by
      unfold dedupStep
      by_cases hy : y ∈ acc
      · rw [if_pos hy]
        constructor
        · exact fun h => Or.inl h
        · rintro (h | rfl)
          · exact h
          · exact hy
      · rw [if_neg hy]
        simp
    rw [List.foldl_cons, ih (dedupStep acc y), step]
    simp [or_assoc]

theorem nodup_foldl_dedupStep {α : Type} [DecidableEq α] :
    ∀ (xs acc : List α), acc.Nodup → (xs.foldl dedupStep acc).Nodup := by
  intro xs
  induction xs with
  | nil => exact fun acc h => h
  | cons y ys ih =>
    intro acc hacc
    rw [List.foldl_cons]
    apply ih
    unfold dedupStep
    by_cases hy : y ∈ acc
    · rw [if_pos hy]; exact hacc
    · rw [if_neg hy]
      simp [List.nodup_append, hacc, hy]

theorem mem_dedupFirst {α : Type} [DecidableEq α] (a : α) (l : List α) :
    a ∈ dedupFirst l ↔ a ∈ l := by
  unfold dedupFirst
  rw [mem_foldl_dedupStep]
  simp

theorem nodup_dedupFirst {α : Type} [DecidableEq α] (l : List α) :
    (dedupFirst l).Nodup := by
  unfold dedupFirst
  exact nodup_foldl_dedupStep l [] List.nodup_nil

theorem dedupFirst_cons_head {α : Type} [DecidableEq α] (x : α) (xs : List α) :
    ∃ t, dedupFirst (x :: xs) = x :: t := by
  unfold dedupFirst
  rw [List.foldl_cons]
  have hstep : dedupStep ([] : List α) x = [x] := by
    unfold dedupStep
    simp
  rw [hstep]
  obtain ⟨t, ht⟩ := foldl_dedupStep_extends xs [x]
  exact ⟨t, by simpa using ht⟩

theorem splitOnColons_ne_nil (l : List Char) : splitOnColons l ≠ [] := by
  induction l using splitOnColons.induct with
  | case1 => simp [splitOnColons]
  | case2 c => simp [splitOnColons]
  | case3 c1 c2 rest hc ih =>
    unfold splitOnColons
    rw [if_pos hc]
    simp
  | case4 c1 c2 rest hc hsp ih => exact absurd hsp ih
  | case5 c1 c2 rest hc p ps hsp ih =>
    unfold splitOnColons
    rw [if_neg hc, hsp]
    simp

theorem two_le_splitOnColons (l : List Char) (h : [':', ':'] <:+: l) :
    2 ≤ (splitOnColons l).length := by
  induction l using splitOnColons.induct with
  | case1 =>
    exfalso
    obtain ⟨a, b, hab⟩ := h
    simp at hab
  | case2 c =>
    exfalso
    obtain ⟨a, b, hab⟩ := h
    apply_fun List.length at hab
    simp at hab
    omega
  | case3 c1 c2 rest hc ih =>
    unfold splitOnColons
    rw [if_pos hc]
    rcases hsp : splitOnColons rest with _ | ⟨p, ps⟩
    · exact absurd hsp (splitOnColons_ne_nil rest)
    · simp
  | case4 c1 c2 rest hc hsp ih => exact absurd hsp (splitOnColons_ne_nil _)
  | case5 c1 c2 rest hc p ps hsp ih =>
    unfold splitOnColons
    rw [if_neg hc, hsp]
    have h2 : [':', ':'] <:+: c2 :: rest := by
      obtain ⟨a, b, hab⟩ := h
      cases a with
      | nil =>
        exfalso
        simp only [List.nil_append, List.cons_append, List.cons.injEq] at hab
        exact hc ⟨hab.1.symm, hab.2.1.symm⟩
      | cons x a2 =>
        simp only [List.cons_append, List.cons.injEq] at hab
        exact ⟨a2, b, hab.2⟩
    have hle := ih h2
    rw [hsp] at hle
    simp only [List.length_cons] at hle ⊢
    omega

theorem splitOnColons_head_isPre (l : List Char) :
    ∃ q qs t, splitOnColons l = q :: qs ∧ q ++ t = l := by
  induction l using splitOnColons.induct with
  | case1 => exact ⟨[], [], [], rfl, rfl⟩
  | case2 c => exact ⟨[c], [], [], rfl, rfl⟩
  | case3 c1 c2 rest hc ih =>
    obtain ⟨h1, h2⟩ := hc
    subst h1
    subst h2
    exact ⟨[], splitOnColons rest, ':' :: ':' :: rest, by simp [splitOnColons], rfl⟩
  | case4 c1 c2 rest hc hsp ih => exact absurd hsp (splitOnColons_ne_nil _)
  | case5 c1 c2 rest hc p ps hsp ih =>
    obtain ⟨q, qs, t, hq, hqt⟩ := ih
    rw [hsp] at hq
    injection hq with hq1 hq2
    refine ⟨c1 :: p, ps, t, ?_, ?_⟩
    · unfold splitOnColons
      rw [if_neg hc, hsp]
    · subst hq1
      simp only [List.cons_append, hqt]

theorem mem_splitOnColons_infix (l : List Char) (p : List Char)
    (hp : p ∈ splitOnColons l) : p <:+: l := by
  induction l using splitOnColons.induct with
  | case1 =>
    simp [splitOnColons] at hp
    subst hp
    exact ⟨[], [], rfl⟩
  | case2 c =>
    simp [splitOnColons] at hp
    subst hp
    exact ⟨[], [], rfl⟩
  | case3 c1 c2 rest hc ih =>
    unfold splitOnColons at hp
    rw [if_pos hc] at hp
    rcases List.mem_cons.mp hp with hp | hp
    · subst hp
      exact ⟨[], c1 :: c2 :: rest, rfl⟩
    · obtain ⟨a, b, hab⟩ := ih hp
      exact ⟨c1 :: c2 :: a, b, by simp [← hab]⟩
  | case4 c1 c2 rest hc hsp ih => exact absurd hsp (splitOnColons_ne_nil _)
  | case5 c1 c2 rest hc p2 ps hsp ih =>
    unfold splitOnColons at hp
    rw [if_neg hc, hsp] at hp
    rcases List.mem_cons.mp hp with hp | hp
    · subst hp
      obtain ⟨q, qs, t, hq, hqt⟩ := splitOnColons_head_isPre (c2 :: rest)
      rw [hsp] at hq
      injection hq with hq1 hq2
      subst hq1
      exact ⟨[], t, by simp [hqt]⟩
    · have hp2 : p ∈ splitOnColons (c2 :: rest) := by
        rw [hsp]
        exact List.mem_cons_of_mem _ hp
      obtain ⟨a, b, hab⟩ := ih hp2
      exact ⟨c1 :: a, b, by simp [← hab]⟩

theorem splitOnDash_head_of_append (m k : List Char) :
    ∃ q qs t, splitOnDash (m ++ '-' :: k) = q :: qs ∧ q ++ t = m := by
  induction m with
  | nil =>
    refine ⟨[], splitOnDash k, [], ?_, rfl⟩
    simp [splitOnDash]
  | cons c m2 ih =>
    by_cases hc : c = '-'
    · subst hc
      refine ⟨[], splitOnDash (m2 ++ '-' :: k), '-' :: m2, ?_, rfl⟩
      simp [splitOnDash]
    · obtain ⟨q, qs, t, hq, hqt⟩ := ih
      refine ⟨c :: q, qs, t, ?_, ?_⟩
      · show splitOnDash (c :: (m2 ++ '-' :: k)) = (c :: q) :: qs
        unfold splitOnDash
        rw [if_neg hc, hq]
      · simp only [List.cons_append, hqt]

theorem toLower_toLower (c : Char) : c.toLower.toLower = c.toLower := by
  simp only [Char.toLower, Char.toNat]
  by_cases h : c.val.toNat ≥ 65 ∧ c.val.toNat ≤ 90
  · rw [if_pos h]
    have hv : (c.val.toNat + 32).isValidChar := Or.inl (by omega)
    have ht : (Char.ofNat (c.val.toNat + 32)).val.toNat = c.val.toNat + 32 := by
      rw [Char.ofNat, dif_pos hv]
      rfl
    rw [ht, if_neg (by omega)]
  · rw [if_neg h, if_neg h]

theorem jsLower_append (a b : JSStr) : jsLower (a ++ b) = jsLower a ++ jsLower b := by
  simp [jsLower]

theorem jsLower_idem (l : JSStr) : jsLower (jsLower l) = jsLower l := by
  induction l with
  | nil => rfl
  | cons c cs ih =>
    simp only [jsLower, List.map_cons, List.cons.injEq] at ih ⊢
    exact ⟨toLower_toLower c, ih⟩

/-- C2 counterexample: two distinct candidate types can have the same derived
slug; the inverse lookup then returns the first of them in candidate order, so
the round trip does not return `type` even though `type` is in the candidate
list and contains `::`. -/
theorem slug_roundtrip_cex :
    resourceTypeToSlug "B::mod::Name".data = "mod-name".data ∧
    jsIncludes "B::mod::Name".data "::".data = true ∧
    "B::mod::Name".data ∈ ["A::mod::Name".data, "B::mod::Name".data] ∧
    slugToResourceType ["A::mod::Name".data, "B::mod::Name".data]
        (resourceTypeToSlug "B::mod::Name".data) = some "A::mod::Name".data ∧
    ("A::mod::Name".data : JSStr) ≠ "B::mod::Name".data := by
  decide

/-- C2 (amended): for every `type` containing `::`, the round trip
`slugToResourceType(types, resourceTypeToSlug(type))` returns `type` whenever
`type` is the FIRST candidate; with `type` merely an element of `types`, an
earlier candidate matching the same slug can be returned instead. -/
theorem slug_roundtrip_first_candidate (type : JSStr) (rest : List JSStr)
    (hcolons : jsIncludes type "::".data = true) :
    slugToResourceType (type :: rest) (resourceTypeToSlug type) = some type := by
  have hinf : [':', ':'] <:+: type := by
    have h2 : decide ("::".data <:+: type) = true := hcolons
    have h3 : "::".data <:+: type := of_decide_eq_true h2
    have h4 : "::".data = [':', ':'] := rfl
    rwa [h4] at h3
  have hlen : 2 ≤ (splitOnColons type).length := two_le_splitOnColons type hinf
  have htne : type ≠ [] := by
    rintro rfl
    obtain ⟨a, b, hab⟩ := hinf
    simp at hab
  have hslug : resourceTypeToSlug type =
      jsLower ((splitOnColons type).getD ((splitOnColons type).length - 2) []) ++
        '-' :: stripLeadingDash (jsLower (dashBeforeUppers
          ((splitOnColons type).getD ((splitOnColons type).length - 1) []))) := by
    unfold resourceTypeToSlug
    rw [if_neg htne]
    dsimp only []
    rw [if_neg (by omega)]
  obtain ⟨q, qs, t, hq, hqt⟩ := splitOnDash_head_of_append
    (jsLower ((splitOnColons type).getD ((splitOnColons type).length - 2) []))
    (stripLeadingDash (jsLower (dashBeforeUppers
      ((splitOnColons type).getD ((splitOnColons type).length - 1) []))))
  have hpartmem : (splitOnColons type).getD ((splitOnColons type).length - 2) []
      ∈ splitOnColons type := by
    rw [List.getD_eq_getElem _ _ (by omega)]
    exact List.getElem_mem _
  have hpartinf := mem_splitOnColons_infix type _ hpartmem
  have hq_inf : jsLower q <:+: jsLower type := by
    obtain ⟨a, b, hab⟩ := hpartinf
    have hMeq : jsLower q ++ jsLower t =
        jsLower ((splitOnColons type).getD ((splitOnColons type).length - 2) []) := by
      have h1 : jsLower (q ++ t) =
          jsLower (jsLower ((splitOnColons type).getD ((splitOnColons type).length - 2) [])) := by
        rw [hqt]
      rw [jsLower_append, jsLower_idem] at h1
      exact h1
    refine ⟨jsLower a, jsLower t ++ jsLower b, ?_⟩
    have h5 : jsLower a ++
        jsLower ((splitOnColons type).getD ((splitOnColons type).length - 2) []) ++ jsLower b
        = jsLower type := by
      have h6 := congrArg jsLower hab
      rwa [jsLower_append, jsLower_append] at h6
    rw [← h5, ← hMeq]
    simp [List.append_assoc]
  have hpred : jsIncludes (jsLower type) (jsLower q) = true := by
    have : decide (jsLower q <:+: jsLower type) = true := decide_eq_true hq_inf
    exact this
  rw [hslug]
  unfold slugToResourceType
  rw [if_neg (by simp)]
  dsimp only []
  have hcont : ((jsLower ((splitOnColons type).getD ((splitOnColons type).length - 2) []) ++
      '-' :: stripLeadingDash (jsLower (dashBeforeUppers
        ((splitOnColons type).getD ((splitOnColons type).length - 1) [])))).contains '-')
      = true := by
    simp
  rw [hcont, hq]
  by_cases hdup : (dedupFirst (q :: qs)).length < (q :: qs).length
  · obtain ⟨dt, hdt⟩ := dedupFirst_cons_head q qs
    rw [if_pos rfl, if_pos hdup, hdt, List.findSome?_cons]
    have hfq : (type :: rest).find? (fun t2 => jsIncludes (jsLower t2) (jsLower q))
        = some type := by
      simp only [List.find?_cons, hpred]
    rw [hfq]
  · rw [if_pos rfl, if_neg hdup]
    have hfe : (type :: rest).find? (fun t2 => decide (resourceTypeToSlug t2 =
        jsLower ((splitOnColons type).getD ((splitOnColons type).length - 2) []) ++
          '-' :: stripLeadingDash (jsLower (dashBeforeUppers
            ((splitOnColons type).getD ((splitOnColons type).length - 1) [])))))
        = some type := by
      simp only [List.find?_cons, decide_eq_true hslug]
    rw [hfe]

/-- Witness for the amended C2 at a concrete type whose slug has a duplicated
segment, as the first candidate of a two-element list. -/
theorem slug_roundtrip_first_candidate_witness :
    slugToResourceType ["0x1::ancestry::Ancestry".data, "0x1::stake::ValidatorConfig".data]
        (resourceTypeToSlug "0x1::ancestry::Ancestry".data)
      = some "0x1::ancestry::Ancestry".data :=
  slug_roundtrip_first_candidate "0x1::ancestry::Ancestry".data
    ["0x1::stake::ValidatorConfig".data] (by decide)

/- Helper lemmas for the categorizer. -/

theorem jsLeb_total : ∀ a b : List Char, jsLeb a b = true ∨ jsLeb b a = true := by
  intro a
  induction a with
  | nil => intro b; left; rfl
  | cons x xs ih =>
    intro b
    cases b with
    | nil => right; rfl
    | cons y ys =>
      unfold jsLeb
      by_cases h1 : x.toNat < y.toNat
      · left
        rw [if_pos h1]
      · by_cases h2 : y.toNat < x.toNat
        · right
          rw [if_pos h2]
        · rcases ih ys with h | h
          · left
            rw [if_neg h1, if_neg h2]
            exact h
          · right
            rw [if_neg h2, if_neg h1]
            exact h

theorem jsLeb_trans :
    ∀ a b c : List Char, jsLeb a b = true → jsLeb b c = true → jsLeb a c = true := by
  intro a
  induction a with
  | nil => intro b c h1 h2; rfl
  | cons x xs ih =>
    intro b c h1 h2
    cases b with
    | nil => exact absurd h1 (by simp [jsLeb])
    | cons y ys =>
      cases c with
      | nil => exact absurd h2 (by simp [jsLeb])
      | cons z zs =>
        unfold jsLeb at h1 h2 ⊢
        by_cases hxy : x.toNat < y.toNat
        · by_cases hyz : y.toNat < z.toNat
          · rw [if_pos (by omega)]
          · by_cases hzy : z.toNat < y.toNat
            · rw [if_neg hyz, if_pos hzy] at h2
              exact absurd h2 (by simp)
            · rw [if_pos (by omega)]
        · by_cases hyx : y.toNat < x.toNat
          · rw [if_neg hxy, if_pos hyx] at h1
            exact absurd h1 (by simp)
          · rw [if_neg hxy, if_neg hyx] at h1
            by_cases hyz : y.toNat < z.toNat
            · rw [if_pos (by omega)]
            · by_cases hzy : z.toNat < y.toNat
              · rw [if_neg hyz, if_pos hzy] at h2
                exact absurd h2 (by simp)
              · rw [if_neg hyz, if_neg hzy] at h2
                rw [if_neg (by omega), if_neg (by omega)]
                exact ih ys zs h1 h2

instance : IsTotal JSStr jsStrLe := ⟨fun a b => jsLeb_total a b⟩

instance : IsTrans JSStr jsStrLe := ⟨fun a b c h1 h2 => jsLeb_trans a b c h1 h2⟩

theorem sortJS_sorted (l : List JSStr) : List.Sorted jsStrLe (sortJS l) :=
  List.sorted_insertionSort jsStrLe l

theorem mem_sortJS (a : JSStr) (l : List JSStr) : a ∈ sortJS l ↔ a ∈ l :=
  (List.perm_insertionSort jsStrLe l).mem_iff

theorem categorize_mem_labels (t : JSStr) : categorize t ∈ categoryLabels := by
  unfold categorize categoryLabels
  dsimp only []
  split
  · simp
  · split
    · simp
    · split
      · simp
      · split
        · simp
        · simp

theorem mem_categorizeResourceTypes (types : List JSStr) (p : String × List JSStr) :
    p ∈ categorizeResourceTypes types ↔
      ∃ c, c ∈ dedupFirst ((dedupFirst types).map categorize) ∧
        p = (c, sortJS ((dedupFirst types).filter (fun t => categorize t = c))) := by
  unfold categorizeResourceTypes
  dsimp only []
  split
  · rw [List.mem_append, List.mem_filter, List.mem_filter]
    simp only [List.mem_map, decide_eq_true_eq]
    constructor
    · rintro (⟨⟨c, hc, rfl⟩, _⟩ | ⟨⟨c, hc, rfl⟩, _⟩) <;> exact ⟨c, hc, rfl⟩
    · rintro ⟨c, hc, rfl⟩
      by_cases ho : c = "Other"
      · right
        exact ⟨⟨c, hc, rfl⟩, ho⟩
      · left
        exact ⟨⟨c, hc, rfl⟩, ho⟩
  · simp only [List.mem_map]
    constructor
    · rintro ⟨c, hc, rfl⟩
      exact ⟨c, hc, rfl⟩
    · rintro ⟨c, hc, rfl⟩
      exact ⟨c, hc, rfl⟩

theorem mapfst_groupMove (keys : List String) (m : String → List JSStr) :
    ((if keys.contains "Other" && keys.length > 1
      then (keys.map (fun c => (c, m c))).filter (fun p => p.1 ≠ "Other") ++
           (keys.map (fun c => (c, m c))).filter (fun p => p.1 = "Other")
      else keys.map (fun c => (c, m c))).map Prod.fst).Perm keys := by
  have h3 : ((keys.map (fun c => (c, m c))).map Prod.fst) = keys := by
    have hco : (Prod.fst ∘ fun c : String => (c, m c)) = id := rfl
    rw [List.map_map, hco, List.map_id]
  split
  · have hpne : (keys.map (fun c => (c, m c))).filter (fun p => p.1 ≠ "Other")
        = (keys.map (fun c => (c, m c))).filter
            (fun p : String × List JSStr => !(decide (p.1 = "Other"))) := by
      apply List.filter_congr
      intro x _
      simp [decide_not]
    have h1 : ((keys.map (fun c => (c, m c))).filter (fun p => p.1 ≠ "Other") ++
        (keys.map (fun c => (c, m c))).filter (fun p => p.1 = "Other")).Perm
          (keys.map (fun c => (c, m c))) := by
      rw [hpne]
      exact List.perm_append_comm.trans
        (List.filter_append_perm
          (fun p : String × List JSStr => decide (p.1 = "Other")) _)
    have h2 := h1.map Prod.fst
    rw [h3] at h2
    exact h2
  · rw [h3]

theorem mapfst_groupMove_other_last (keys : List String) (m : String → List JSStr)
    (hnd : keys.Nodup) (hmem : "Other" ∈ keys) :
    ((if keys.contains "Other" && keys.length > 1
      then (keys.map (fun c => (c, m c))).filter (fun p => p.1 ≠ "Other") ++
           (keys.map (fun c => (c, m c))).filter (fun p => p.1 = "Other")
      else keys.map (fun c => (c, m c))).map Prod.fst).getLast? = some "Other" := by
  split
  · rw [List.map_append]
    have hfeq : (keys.map (fun c => (c, m c))).filter (fun p => p.1 = "Other")
        = [("Other", m "Other")] := by
      rw [List.filter_map]
      have hc : ((fun p : String × List JSStr => decide (p.1 = "Other")) ∘
          (fun c => (c, m c))) = fun c => decide (c = "Other") := rfl
      rw [hc, List.filter_eq, List.count_eq_one_of_mem hnd hmem]
      simp
    rw [hfeq]
    simp only [List.map_cons, List.map_nil]
    exact List.getLast?_concat _
  · rename_i hcond
    have h3 : ((keys.map (fun c => (c, m c))).map Prod.fst) = keys := by
      have hco : (Prod.fst ∘ fun c : String => (c, m c)) = id := rfl
      rw [List.map_map, hco, List.map_id]
    rw [h3]
    rcases keys with _ | ⟨c, cs⟩
    · exact absurd hmem (by simp)
    · have hcont : (c :: cs).contains "Other" = true := by
        have helem : (c :: cs).elem "Other" = true := List.elem_iff.mpr hmem
        exact helem
      have hcs : cs = [] := by
        rcases cs with _ | ⟨d, ds⟩
        · rfl
        · exfalso
          apply hcond
          rw [hcont]
          simp
      subst hcs
      have hco : "Other" = c := by simpa using hmem
      subst hco
      rfl

theorem keys_nodup_categorizeResourceTypes (types : List JSStr) :
    (((categorizeResourceTypes types).map Prod.fst)).Nodup := by
  have hperm : ((categorizeResourceTypes types).map Prod.fst).Perm
      (dedupFirst ((dedupFirst types).map categorize)) := by
    unfold categorizeResourceTypes
    dsimp only []
    exact mapfst_groupMove _ _
  exact hperm.nodup_iff.mpr (nodup_dedupFirst _)

theorem other_last_categorizeResourceTypes (types : List JSStr)
    (h : "Other" ∈ (categorizeResourceTypes types).map Prod.fst) :
    ((categorizeResourceTypes types).map Prod.fst).getLast? = some "Other" := by
  have hperm : ((categorizeResourceTypes types).map Prod.fst).Perm
      (dedupFirst ((dedupFirst types).map categorize)) := by
    unfold categorizeResourceTypes
    dsimp only []
    exact mapfst_groupMove _ _
  have hmemK : "Other" ∈ dedupFirst ((dedupFirst types).map categorize) :=
    hperm.mem_iff.mp h
  unfold categorizeResourceTypes
  dsimp only []
  exact mapfst_groupMove_other_last _ _ (nodup_dedupFirst _) hmemK

/-- C4: `categorizeResourceTypes` partitions its input: every input type is in
some category member list and (for types in the output) in exactly one; every
category label is from the fixed set; members are exactly the input types whose
ordered-substring categorization gives that label; member lists are sorted in
the JS default sort order; no category is emitted empty (in particular "Other"
is omitted when no type falls into it); the category keys are distinct and
"Other" is the last key whenever it is present. -/
theorem categorizeResourceTypes_partition (types : List JSStr) :
    (∀ t, t ∈ types ↔ ∃ p, p ∈ categorizeResourceTypes types ∧ t ∈ p.2) ∧
    (∀ t, t ∈ types → ∃! p, p ∈ categorizeResourceTypes types ∧ t ∈ p.2) ∧
    (∀ p, p ∈ categorizeResourceTypes types → p.1 ∈ categoryLabels) ∧
    (∀ p, p ∈ categorizeResourceTypes types → ∀ t, t ∈ p.2 → categorize t = p.1) ∧
    (∀ p, p ∈ categorizeResourceTypes types → List.Sorted jsStrLe p.2) ∧
    (∀ p, p ∈ categorizeResourceTypes types → p.2 ≠ []) ∧
    ((categorizeResourceTypes types).map Prod.fst).Nodup ∧
    ("Other" ∈ (categorizeResourceTypes types).map Prod.fst →
      ((categorizeResourceTypes types).map Prod.fst).getLast? = some "Other") := by
  have hassign : ∀ p, p ∈ categorizeResourceTypes types → ∀ t, t ∈ p.2 →
      categorize t = p.1 := by
    intro p hp t ht
    obtain ⟨c, hc, rfl⟩ := (mem_categorizeResourceTypes types p).mp hp
    rw [mem_sortJS, List.mem_filter] at ht
    exact of_decide_eq_true ht.2
  have hunion : ∀ t, t ∈ types ↔
      ∃ p, p ∈ categorizeResourceTypes types ∧ t ∈ p.2 := by
    intro t
    constructor
    · intro ht
      have htu : t ∈ dedupFirst types := (mem_dedupFirst t types).mpr ht
      refine ⟨(categorize t,
        sortJS ((dedupFirst types).filter (fun t2 => categorize t2 = categorize t))), ?_, ?_⟩
      · rw [mem_categorizeResourceTypes]
        refine ⟨categorize t, ?_, rfl⟩
        rw [mem_dedupFirst]
        exact List.mem_map_of_mem _ htu
      · rw [mem_sortJS, List.mem_filter]
        exact ⟨htu, by simp⟩
    · rintro ⟨p, hp, ht⟩
      obtain ⟨c, hc, rfl⟩ := (mem_categorizeResourceTypes types p).mp hp
      rw [mem_sortJS, List.mem_filter] at ht
      exact (mem_dedupFirst t types).mp ht.1
  have hnodup := keys_nodup_categorizeResourceTypes types
  have huniq : ∀ t, t ∈ types → ∃! p, p ∈ categorizeResourceTypes types ∧ t ∈ p.2 := by
    intro t ht
    obtain ⟨p, hp, htp⟩ := (hunion t).mp ht
    refine ⟨p, ⟨hp, htp⟩, ?_⟩
    rintro q ⟨hq, htq⟩
    have h1 : q.1 = p.1 := by
      rw [← hassign q hq t htq, ← hassign p hp t htp]
    exact List.inj_on_of_nodup_map hnodup hq hp h1
  have hlabels : ∀ p, p ∈ categorizeResourceTypes types → p.1 ∈ categoryLabels := by
    intro p hp
    obtain ⟨c, hc, rfl⟩ := (mem_categorizeResourceTypes types p).mp hp
    rw [mem_dedupFirst] at hc
    obtain ⟨t0, _, hct⟩ := List.mem_map.mp hc
    rw [← hct]
    exact categorize_mem_labels t0
  have hsorted : ∀ p, p ∈ categorizeResourceTypes types → List.Sorted jsStrLe p.2 := by
    intro p hp
    obtain ⟨c, hc, rfl⟩ := (mem_categorizeResourceTypes types p).mp hp
    exact sortJS_sorted _
  have hnonempty : ∀ p, p ∈ categorizeResourceTypes types → p.2 ≠ [] := by
    intro p hp
    obtain ⟨c, hc, rfl⟩ := (mem_categorizeResourceTypes types p).mp hp
    rw [mem_dedupFirst] at hc
    obtain ⟨t0, ht0, hct⟩ := List.mem_map.mp hc
    have hmem : t0 ∈ sortJS ((dedupFirst types).filter (fun t2 => categorize t2 = c)) := by
      rw [mem_sortJS, List.mem_filter]
      exact ⟨ht0, by simp [hct]⟩
    exact List.ne_nil_of_mem hmem
  exact ⟨hunion, huniq, hlabels, hassign, hsorted, hnonempty, hnodup,
    other_last_categorizeResourceTypes types⟩

/-- Witness for C4: at a concrete input, "Other" is present among the keys and
the theorem places it last. -/
theorem categorizeResourceTypes_partition_witness :
    ("Other" ∈ (categorizeResourceTypes
        ["0x1::mystery::Blob".data, "0x1::ancestry::Ancestry".data]).map Prod.fst) ∧
    ((categorizeResourceTypes
        ["0x1::mystery::Blob".data, "0x1::ancestry::Ancestry".data]).map Prod.fst).getLast?
      = some "Other" :=
  ⟨by decide,
   (categorizeResourceTypes_partition
      ["0x1::mystery::Blob".data, "0x1::ancestry::Ancestry".data]).2.2.2.2.2.2.2 (by decide)⟩
